import Mathlib

/-!
Verification development for the `gitplz` bulk git tool.

The embedding follows the two source files:
  * `src/main.rs` — the per-repository command loop (`process`), the
    `checkout` / `reset` / `status` commands and `manifest_generate` /
    `manifest_preview`;
  * `manifestlib/src/manifest.rs` — `ManifestData` (root path plus a
    deduplicated set of root-relative repository paths), `ManifestData::add`,
    `Manifest::open` and `Manifest::add_repositories`.

The git capability (`gitlib`) is external to the two files: a repository
handle is embedded as a record of the outcomes its capability calls produce
during the one invocation under study.  Rust panics (`unwrap` on an `Err` or
`None`) are embedded as `Except.error ()`; a `.ok` value is a normally
terminating run together with the lines it prints.  Terminal colouring is
presentation-only and is elided from the printed lines.
-/

/-- Opaque error type of the external git capability (`gitlib::GitError`). -/
inductive GitError
  | e
deriving DecidableEq, Repr

/-- File status kinds of the external capability (`gitlib::FileStatus`). -/
inductive FileStatus
  | deleted
  | modified
  | new
  | renamed
  | typechanged
  | unknown
deriving DecidableEq, Repr

/-- One changed-file entry yielded by `repo.statuses()`.  The entry path is
taken as an already decoded string (`entry.path().unwrap()` in the source). -/
structure StatusEntry where
  status : FileStatus
  path : String
deriving DecidableEq, Repr

/-- A repository handle: its display path and the outcome of each capability
call for this invocation.  `path` is the decoded form of
`repo.path().to_str().unwrap()`; path decoding is examined separately in the
manifest-layer embedding, where paths are raw component lists.
`resetResult` carries the new head's branch name on success
(`head.name().unwrap()` in the source). -/
structure GitRepo where
  path : String
  statusesResult : Except GitError (List StatusEntry)
  checkoutResult : Except GitError Unit
  resetResult : Except GitError String
  removeUntrackedResult : Except GitError Unit

/-- The fixed-width label printed for each file status
(`main.rs` lines 186-193, colours elided). -/
def labelStr : FileStatus → String
  | .deleted => "    Deleted"
  | .modified => "   Modified"
  | .new => "        New"
  | .renamed => "    Renamed"
  | .typechanged => "Typechanged"
  | .unknown => "    Unknown"

/-- The closed set of status labels the source can print. -/
def labelSet : List String :=
  ["    Deleted", "   Modified", "        New", "    Renamed",
   "Typechanged", "    Unknown"]

/-- One printed line of the status listing (`main.rs` line 195). -/
def statusLine (entry : StatusEntry) : String :=
  "  " ++ labelStr entry.status ++ " " ++ entry.path

/-- `fn checkout(repo, branch)` of `main.rs`: try the capability checkout and
on success print the repository path. -/
def checkout (repo : GitRepo) (_branch : String) : Except GitError (List String) :=
  match repo.checkoutResult with
  | .error err => .error err
  | .ok _ => .ok [repo.path]

/-- `fn reset(repo)` of `main.rs`: capability reset, then print
`path  [branch]`. -/
def reset (repo : GitRepo) : Except GitError (List String) :=
  match repo.resetResult with
  | .error err => .error err
  | .ok head => .ok [repo.path ++ "  [" ++ head ++ "]"]

/-- `fn status(repo)` of `main.rs`: list statuses; print nothing when there
are none, otherwise the repository path followed by one labelled line per
entry. -/
def status (repo : GitRepo) : Except GitError (List String) :=
  match repo.statusesResult with
  | .error err => .error err
  | .ok entries =>
      if entries.length = 0 then .ok []
      else .ok (repo.path :: entries.map statusLine)

/-- `fn manifest_generate(repos, path)` of `main.rs`: write one line per
repository holding the repository's (absolute) display path.  The returned
list is the written file content; `File::create` is assumed to succeed and
`writeln!` errors are ignored by the source. -/
def manifest_generate (repos : List GitRepo) : List String :=
  repos.map (fun repo => repo.path)

/-- `fn manifest_preview(repos)` of `main.rs`: print one path per repository. -/
def manifest_preview (repos : List GitRepo) : List String :=
  repos.map (fun repo => repo.path)

/-- The `ManifestOption` enum of `main.rs` (the generate target path is kept
abstract: only the written content matters here). -/
inductive ManifestOption
  | generate
  | preview

/-- The `RunOption` enum of `main.rs`. -/
inductive RunOption
  | checkout (branch : String)
  | manifest (m : ManifestOption)
  | reset
  | status

/-- One iteration of the repository loop of `fn process` (`main.rs` lines
121-130).  A `checkout` failure is caught by `unwrap_or_else` and printed;
`reset` and `status` failures hit `.unwrap()` and panic (`Except.error`).
The `manifest` arm is the `panic!("Unhandled run option")` arm, unreachable
because `process` returns before the loop for manifest options. -/
def runRepo (opt : RunOption) (repo : GitRepo) : Except Unit (List String) :=
  match opt with
  | .checkout branch =>
      match checkout repo branch with
      | .ok lines => .ok lines
      | .error _ => .ok ["Error on checkout"]
  | .reset =>
      match reset repo with
      | .ok lines => .ok lines
      | .error _ => .error ()
  | .status =>
      match status repo with
      | .ok lines => .ok lines
      | .error _ => .error ()
  | .manifest _ => .error ()

/-- The repository loop of `fn process`: sequentially run the option on each
repository, stopping the whole run at the first panic. -/
def processLoop (opt : RunOption) : List GitRepo → Except Unit (List String)
  | [] => .ok []
  | repo :: rest =>
      match runRepo opt repo with
      | .error err => .error err
      | .ok out =>
          match processLoop opt rest with
          | .error err => .error err
          | .ok outs => .ok (out ++ outs)

/-- `fn process(option, path)` of `main.rs`: manifest options are handled
before the loop and return; the other options run the per-repository loop.
The repository sequence stands for what `GitRepositories::new` discovered. -/
def process (opt : RunOption) (repos : List GitRepo) : Except Unit (List String) :=
  match opt with
  | .manifest .generate => .ok (manifest_generate repos)
  | .manifest .preview => .ok (manifest_preview repos)
  | _ => processLoop opt repos

/-!
Manifest layer (`manifestlib/src/manifest.rs`).

An OS path is a list of components; a component either decodes to UTF-8
(`Seg.valid`) or does not (`Seg.invalid`).  `Path::to_str` succeeds exactly
when every component decodes; a component never contains a separator, so the
string round-trip through `PathBuf::from(path_strip.to_str().unwrap())`
preserves the component list and a stored relative path is embedded directly
as its list of decoded components.
-/

/-- One path component: a decoded UTF-8 component or an undecodable one. -/
inductive Seg
  | valid (s : String)
  | invalid (id : Nat)
deriving DecidableEq, Repr

/-- An OS path as its list of components. -/
abbrev OsPath := List Seg

/-- `Path::to_str`: decode every component, `none` when any fails. -/
def osToStr : OsPath → Option (List String)
  | [] => some []
  | Seg.valid s :: rest => (osToStr rest).map (fun tl => s :: tl)
  | Seg.invalid _ :: _ => none

/-- `Path::strip_prefix` on components: remove `root` from the front of `p`
when it is a prefix, otherwise fail (`Err` in the source). -/
def stripPre : OsPath → OsPath → Option OsPath
  | [], p => some p
  | _ :: _, [] => none
  | r :: rs, s :: ps => if r = s then stripPre rs ps else none

/-- `root.join(rel)` for a decoded relative path: append its components. -/
def joinP (root : OsPath) (rel : List String) : OsPath :=
  root ++ rel.map Seg.valid

/-- `ManifestData` of `manifest.rs`: the scan root and the stored set of
root-relative repository paths.  The `BTreeSet` is embedded as a
duplicate-free list built by membership-checked insertion; the claims under
study are about the set, not its traversal order. -/
structure ManifestData where
  root_path : OsPath
  repositories : List (List String)
deriving DecidableEq, Repr

/-- Set insertion into the repository list: a present path is a no-op. -/
def insertRepo (s : List (List String)) (p : List String) : List (List String) :=
  if p ∈ s then s else s ++ [p]

/-- `ManifestData::empty(path)`. -/
def ManifestData.empty (root : OsPath) : ManifestData :=
  { root_path := root, repositories := [] }

/-- `ManifestData::add(repo)`: strip the root from the repository path; on
failure print diagnostics and return unchanged; otherwise decode the suffix
(`to_str().unwrap()`, a panic when undecodable) and insert it into the set. -/
def ManifestData.add (md : ManifestData) (repoPath : OsPath) :
    Except Unit ManifestData :=
  match stripPre md.root_path repoPath with
  | none => .ok md
  | some suffix =>
      match osToStr suffix with
      | none => .error ()
      | some rel => .ok { md with repositories := insertRepo md.repositories rel }

/-- The merge loop of `Manifest::add_repositories`: fold `add` over the
discovered repository paths, propagating any panic. -/
def ManifestData.addAll (md : ManifestData) : List OsPath → Except Unit ManifestData
  | [] => .ok md
  | p :: ps =>
      match md.add p with
      | .error err => .error err
      | .ok md1 => md1.addAll ps

/-- `serde_json::to_string_pretty(&self.data)`: serializing the snapshot
serializes `root_path`, and serde errors on a path that is not valid UTF-8,
so serialization succeeds exactly when the root path decodes (the stored
repository paths are already decoded strings and always serialize). -/
def ManifestData.serializeOk (md : ManifestData) : Bool :=
  (osToStr md.root_path).isSome

/-- `Manifest::add_repositories(repos)`: merge every repository, then
serialize and write the whole snapshot once.  The
`to_string_pretty(..).unwrap()` panics when serialization fails (an
undecodable root path); `writeOk` models `get_file`, whose
directory-creation and `File::create` calls unwrap and so panic on a
filesystem failure; `write!` errors are printed and ignored by the source. -/
def Manifest.add_repositories (md : ManifestData) (repos : List OsPath)
    (writeOk : Bool) : Except Unit ManifestData :=
  match md.addAll repos with
  | .error err => .error err
  | .ok md1 =>
      if md1.serializeOk then (if writeOk then .ok md1 else .error ())
      else .error ()

/-- State of the manifest document on disk, as `Manifest::open` can observe
it: absent (`exists()` false), present but not openable (`File::open`
returns `Err`), or openable with content that either parses to a
`ManifestData` or does not (serde abstracted to its outcome). -/
inductive DocState
  | absent
  | unopenable
  | openable (content : Option ManifestData)

/-- `Manifest::open(path, root)` of `manifest.rs`: absent document or parse
failure yields the empty snapshot bound to root; an openable document that
parses yields its data; an existing but unopenable document hits
`File::open(path_ref).unwrap()` and panics.  The Rust `Result` itself is
always `Ok`. -/
def Manifest.open (doc : DocState) (root : OsPath) : Except Unit ManifestData :=
  match doc with
  | .absent => .ok (ManifestData.empty root)
  | .unopenable => .error ()
  | .openable none => .ok (ManifestData.empty root)
  | .openable (some d) => .ok d

theorem stripPre_eq_append :
    ∀ {root p suf : OsPath}, stripPre root p = some suf → root ++ suf = p := by
  intro root
  induction root with
  | nil =>
      intro p suf h
      simp [stripPre] at h
      simp [h]
  | cons r rs ih =>
      intro p suf h
      cases p with
      | nil => simp [stripPre] at h
      | cons s ps =>
          by_cases hrs : r = s
          · subst hrs
            simp [stripPre] at h
            simpa using ih h
          · simp [stripPre, hrs] at h

theorem osToStr_map_valid :
    ∀ {suf : OsPath} {rel : List String}, osToStr suf = some rel →
      rel.map Seg.valid = suf := by
  intro suf
  induction suf with
  | nil =>
      intro rel h
      simp [osToStr] at h
      simp [← h]
  | cons sg rest ih =>
      intro rel h
      cases sg with
      | valid s =>
          simp [osToStr] at h
          obtain ⟨tl, htl, hrel⟩ := h
          subst hrel
          simp [ih htl]
      | invalid id => simp [osToStr] at h

theorem mem_insertRepo_iff (s : List (List String)) (p q : List String) :
    q ∈ insertRepo s p ↔ q ∈ s ∨ q = p := by
  unfold insertRepo
  by_cases hp : p ∈ s
  · simp only [if_pos hp]
    constructor
    · exact fun h => Or.inl h
    · rintro (h | rfl)
      · exact h
      · exact hp
  · simp [if_neg hp]

theorem insertRepo_of_mem {s : List (List String)} {p : List String} (h : p ∈ s) :
    insertRepo s p = s := by
  simp [insertRepo, h]

theorem add_root {md md' : ManifestData} {p : OsPath}
    (h : md.add p = .ok md') : md'.root_path = md.root_path := by
  unfold ManifestData.add at h
  cases hs : stripPre md.root_path p with
  | none =>
      rw [hs] at h
      cases h
      rfl
  | some suf =>
      rw [hs] at h
      dsimp only at h
      cases ho : osToStr suf with
      | none => rw [ho] at h; cases h
      | some rel =>
          rw [ho] at h
          cases h
          rfl

theorem add_mem_mono {md md' : ManifestData} {p : OsPath} {q : List String}
    (h : md.add p = .ok md') (hq : q ∈ md.repositories) : q ∈ md'.repositories := by
  unfold ManifestData.add at h
  cases hs : stripPre md.root_path p with
  | none =>
      rw [hs] at h
      cases h
      exact hq
  | some suf =>
      rw [hs] at h
      dsimp only at h
      cases ho : osToStr suf with
      | none => rw [ho] at h; cases h
      | some rel =>
          rw [ho] at h
          cases h
          exact (mem_insertRepo_iff _ _ _).mpr (Or.inl hq)

theorem addAll_root :
    ∀ {ps : List OsPath} {md md' : ManifestData},
      md.addAll ps = .ok md' → md'.root_path = md.root_path := by
  intro ps
  induction ps with
  | nil =>
      intro md md' h
      cases h
      rfl
  | cons p rest ih =>
      intro md md' h
      unfold ManifestData.addAll at h
      cases ha : md.add p with
      | error err => rw [ha] at h; cases h
      | ok md1 =>
          rw [ha] at h
          exact (ih h).trans (add_root ha)

theorem addAll_mem_mono :
    ∀ {ps : List OsPath} {md md' : ManifestData} {q : List String},
      md.addAll ps = .ok md' → q ∈ md.repositories → q ∈ md'.repositories := by
  intro ps
  induction ps with
  | nil =>
      intro md md' q h hq
      cases h
      exact hq
  | cons p rest ih =>
      intro md md' q h hq
      unfold ManifestData.addAll at h
      cases ha : md.add p with
      | error err => rw [ha] at h; cases h
      | ok md1 =>
          rw [ha] at h
          exact ih h (add_mem_mono ha hq)

theorem add_provenance {md md' : ManifestData} {p : OsPath}
    (h : md.add p = .ok md') :
    ∀ rel ∈ md'.repositories,
      rel ∈ md.repositories ∨ joinP md.root_path rel = p := by
  intro rel hrel
  unfold ManifestData.add at h
  cases hs : stripPre md.root_path p with
  | none =>
      rw [hs] at h
      cases h
      exact Or.inl hrel
  | some suf =>
      rw [hs] at h
      dsimp only at h
      cases ho : osToStr suf with
      | none => rw [ho] at h; cases h
      | some rel' =>
          rw [ho] at h
          cases h
          rcases (mem_insertRepo_iff _ _ _).mp hrel with hmem | heq
          · exact Or.inl hmem
          · subst heq
            refine Or.inr ?_
            unfold joinP
            rw [osToStr_map_valid ho]
            exact stripPre_eq_append hs

theorem addAll_provenance :
    ∀ {ps : List OsPath} {md md' : ManifestData},
      md.addAll ps = .ok md' →
      ∀ rel ∈ md'.repositories,
        rel ∈ md.repositories ∨ ∃ p, p ∈ ps ∧ joinP md.root_path rel = p := by
  intro ps
  induction ps with
  | nil =>
      intro md md' h rel hrel
      cases h
      exact Or.inl hrel
  | cons p rest ih =>
      intro md md' h rel hrel
      unfold ManifestData.addAll at h
      cases ha : md.add p with
      | error err => rw [ha] at h; cases h
      | ok md1 =>
          rw [ha] at h
          rcases ih h rel hrel with hmem | ⟨p', hp', hj⟩
          · rcases add_provenance ha rel hmem with hmem' | hj
            · exact Or.inl hmem'
            · exact Or.inr ⟨p, List.mem_cons_self _ _, hj⟩
          · refine Or.inr ⟨p', List.mem_cons_of_mem _ hp', ?_⟩
            rw [← hj, add_root ha]

theorem add_eval_none {md : ManifestData} {p : OsPath}
    (hs : stripPre md.root_path p = none) : md.add p = .ok md := by
  unfold ManifestData.add
  rw [hs]

theorem add_eval_some {md : ManifestData} {p suf : OsPath} {rel : List String}
    (hs : stripPre md.root_path p = some suf) (ho : osToStr suf = some rel) :
    md.add p = .ok { md with repositories := insertRepo md.repositories rel } := by
  unfold ManifestData.add
  rw [hs]
  dsimp only
  rw [ho]

theorem add_eval_panic {md : ManifestData} {p suf : OsPath}
    (hs : stripPre md.root_path p = some suf) (ho : osToStr suf = none) :
    md.add p = .error () := by
  unfold ManifestData.add
  rw [hs]
  dsimp only
  rw [ho]

theorem add_again {md md1 md' : ManifestData} {p : OsPath} {ps : List OsPath}
    (ha : md.add p = .ok md1) (hall : md1.addAll ps = .ok md') :
    md'.add p = .ok md' := by
  have hroot : md'.root_path = md.root_path :=
    (addAll_root hall).trans (add_root ha)
  cases hs : stripPre md.root_path p with
  | none =>
      have : stripPre md'.root_path p = none := by rw [hroot, hs]
      exact add_eval_none this
  | some suf =>
      cases ho : osToStr suf with
      | none =>
          rw [add_eval_panic hs ho] at ha
          cases ha
      | some rel =>
          rw [add_eval_some hs ho] at ha
          cases ha
          have hmem1 : rel ∈ insertRepo md.repositories rel :=
            (mem_insertRepo_iff _ _ _).mpr (Or.inr rfl)
          have hmem : rel ∈ md'.repositories := addAll_mem_mono hall hmem1
          have hs' : stripPre md'.root_path p = some suf := by rw [hroot, hs]
          rw [add_eval_some hs' ho, insertRepo_of_mem hmem]

theorem addAll_twice :
    ∀ {ps : List OsPath} {md md' : ManifestData},
      md.addAll ps = .ok md' → md'.addAll ps = .ok md' := by
  intro ps
  induction ps with
  | nil =>
      intro md md' h
      cases h
      rfl
  | cons p rest ih =>
      intro md md' h
      unfold ManifestData.addAll at h ⊢
      cases ha : md.add p with
      | error err => rw [ha] at h; cases h
      | ok md1 =>
          rw [ha] at h
          rw [add_again ha h]
          exact ih h

theorem addAll_total :
    ∀ {ps : List OsPath} {md : ManifestData},
      (∀ p ∈ ps, ∀ suf, stripPre md.root_path p = some suf →
        (osToStr suf).isSome = true) →
      ∃ md', md.addAll ps = .ok md' := by
  intro ps
  induction ps with
  | nil =>
      intro md _
      exact ⟨md, rfl⟩
  | cons p rest ih =>
      intro md hutf
      cases hs : stripPre md.root_path p with
      | none =>
          obtain ⟨md', hmd'⟩ :=
            ih (fun q hq => hutf q (List.mem_cons_of_mem _ hq))
          refine ⟨md', ?_⟩
          unfold ManifestData.addAll
          rw [add_eval_none hs]
          exact hmd'
      | some suf =>
          have hsome := hutf p (List.mem_cons_self _ _) suf hs
          cases ho : osToStr suf with
          | none => rw [ho] at hsome; cases hsome
          | some rel =>
              have hroot :
                  ({ md with repositories := insertRepo md.repositories rel } :
                    ManifestData).root_path = md.root_path := rfl
              obtain ⟨md', hmd'⟩ :=
                @ih { md with repositories := insertRepo md.repositories rel }
                  (fun q hq => by
                    rw [hroot]
                    exact hutf q (List.mem_cons_of_mem _ hq))
              refine ⟨md', ?_⟩
              unfold ManifestData.addAll
              rw [add_eval_some hs ho]
              exact hmd'

/-!
Concrete repositories used by witnesses and counterexamples, and the
dispatch-layer claims.
-/

/-- A repository on which every capability call succeeds and whose status
holds one modified file. -/
def okRepo : GitRepo :=
  { path := "/r/good"
    statusesResult := .ok [{ status := .modified, path := "f.txt" }]
    checkoutResult := .ok ()
    resetResult := .ok "master"
    removeUntrackedResult := .ok () }

/-- A repository with zero pending changes on which every call succeeds. -/
def cleanRepo : GitRepo :=
  { path := "/r/clean"
    statusesResult := .ok []
    checkoutResult := .ok ()
    resetResult := .ok "master"
    removeUntrackedResult := .ok () }

/-- A repository on which every capability call fails. -/
def failRepo : GitRepo :=
  { path := "/r/fail"
    statusesResult := .error .e
    checkoutResult := .error .e
    resetResult := .error .e
    removeUntrackedResult := .error .e }

/-- The line the checkout arm of the loop prints for one repository: the
path on success, the fallback message printed by `unwrap_or_else` on
failure. -/
def checkoutLine (repo : GitRepo) : String :=
  match repo.checkoutResult with
  | .ok _ => repo.path
  | .error _ => "Error on checkout"

theorem processLoop_checkout (branch : String) :
    ∀ repos : List GitRepo,
      processLoop (RunOption.checkout branch) repos = .ok (repos.map checkoutLine) := by
  intro repos
  induction repos with
  | nil => rfl
  | cons repo rest ih =>
      have hr : runRepo (RunOption.checkout branch) repo = .ok [checkoutLine repo] := by
        unfold runRepo checkout checkoutLine
        cases repo.checkoutResult <;> rfl
      unfold processLoop
      rw [hr, ih]
      rfl

/-- C1 (counterexample): with the status operation, a repository whose
status query fails makes the whole run panic, and the following repository
— which alone produces output — is never processed. -/
theorem spec_c1_counterexample :
    process RunOption.status [failRepo, okRepo] = .error () ∧
    process RunOption.status [okRepo] = .ok ["/r/good", "     Modified f.txt"] :=
  ⟨rfl, rfl⟩

/-- C1 (amended): only the checkout operation isolates per-repository
failures — it reports either the path or an error line for every repository
and never aborts; for the status and the reset operations a failure in one
repository's capability call panics the whole run, so the remaining
repositories are not processed. -/
theorem spec_c1_amended :
    (∀ (branch : String) (repos : List GitRepo),
        process (RunOption.checkout branch) repos = .ok (repos.map checkoutLine)) ∧
    (∀ (repo : GitRepo) (rest : List GitRepo) (err : GitError),
        repo.statusesResult = .error err →
        process RunOption.status (repo :: rest) = .error ()) ∧
    (∀ (repo : GitRepo) (rest : List GitRepo) (err : GitError),
        repo.resetResult = .error err →
        process RunOption.reset (repo :: rest) = .error ()) := by
  refine ⟨?_, ?_, ?_⟩
  · intro branch repos
    exact processLoop_checkout branch repos
  · intro repo rest err h
    show processLoop RunOption.status (repo :: rest) = .error ()
    simp [processLoop, runRepo, status, h]
  · intro repo rest err h
    show processLoop RunOption.reset (repo :: rest) = .error ()
    simp [processLoop, runRepo, reset, h]

/-- C1 (witness): the amended claim at concrete inputs — a checkout run over
a succeeding and a failing repository yields both their own lines, and a
status run or a reset run that starts with a failing repository panics. -/
theorem spec_c1_witness :
    process (RunOption.checkout "dev") [okRepo, failRepo] =
      .ok ["/r/good", "Error on checkout"] ∧
    process RunOption.status [failRepo] = .error () ∧
    process RunOption.reset [failRepo] = .error () :=
  ⟨(spec_c1_amended.1 "dev" [okRepo, failRepo]).trans rfl,
   spec_c1_amended.2.1 failRepo [] .e rfl,
   spec_c1_amended.2.2 failRepo [] .e rfl⟩

/-- A repository at `/repos/a` under the root `/repos`. -/
def repoA : GitRepo :=
  { path := "/repos/a"
    statusesResult := .ok []
    checkoutResult := .ok ()
    resetResult := .ok "master"
    removeUntrackedResult := .ok () }

/-- A repository at `/repos/b/c` under the root `/repos`. -/
def repoBC : GitRepo :=
  { path := "/repos/b/c"
    statusesResult := .ok []
    checkoutResult := .ok ()
    resetResult := .ok "master"
    removeUntrackedResult := .ok () }

/-- C5 (counterexample): with the root `/repos` holding repositories
`/repos/a` and `/repos/b/c`, the manifest generate command of this snapshot
writes the absolute paths, one per line — neither `a` nor `b/c` appears. -/
theorem spec_c5_counterexample :
    process (RunOption.manifest ManifestOption.generate) [repoA, repoBC] =
      .ok ["/repos/a", "/repos/b/c"] ∧
    "a" ∉ ["/repos/a", "/repos/b/c"] ∧ "b/c" ∉ ["/repos/a", "/repos/b/c"] :=
  ⟨rfl, by decide, by decide⟩

/-- C5 (amended): the manifest generate command writes one line per
discovered repository holding that repository's absolute path — paths are
not stored relative to the root. -/
theorem spec_c5_amended :
    ∀ repos : List GitRepo,
      process (RunOption.manifest ManifestOption.generate) repos =
        .ok (repos.map fun repo => repo.path) :=
  fun _ => rfl

/-- C8: a repository with zero pending changes produces no output; a
repository with changes produces its path followed by one line per changed
file, each tagged by `labelStr` with exactly one label from the closed
six-element label set. -/
theorem spec_c8_status :
    (∀ repo : GitRepo, repo.statusesResult = .ok [] → status repo = .ok []) ∧
    (∀ (repo : GitRepo) (entries : List StatusEntry),
        repo.statusesResult = .ok entries → entries ≠ [] →
        status repo = .ok (repo.path :: entries.map statusLine)) ∧
    (∀ st : FileStatus, labelStr st ∈ labelSet) ∧
    labelSet.Nodup ∧ labelSet.length = 6 := by
  refine ⟨?_, ?_, ?_, ?_, ?_⟩
  · intro repo h
    simp [status, h]
  · intro repo entries h hne
    have hlen : ¬entries.length = 0 := by simp [List.length_eq_zero, hne]
    simp [status, h, hlen]
  · intro st
    cases st <;> decide
  · decide
  · rfl

/-- A repository with two modified files and one new file (scenario B's X). -/
def repoX : GitRepo :=
  { path := "/r/x"
    statusesResult := .ok
      [{ status := .modified, path := "m1.txt" },
       { status := .modified, path := "m2.txt" },
       { status := .new, path := "n.txt" }]
    checkoutResult := .ok ()
    resetResult := .ok "master"
    removeUntrackedResult := .ok () }

/-- C8 (witness): scenario B — repository X with two modified files and one
new file prints its path and three labelled lines; clean repository Y prints
nothing. -/
theorem spec_c8_witness :
    status repoX =
      .ok ["/r/x", "     Modified m1.txt", "     Modified m2.txt",
           "          New n.txt"] ∧
    status cleanRepo = .ok [] :=
  ⟨(spec_c8_status.2.1 repoX
      [{ status := .modified, path := "m1.txt" },
       { status := .modified, path := "m2.txt" },
       { status := .new, path := "n.txt" }] rfl (by decide)).trans rfl,
   spec_c8_status.1 cleanRepo rfl⟩

/-!
Manifest-layer claims.
-/

/-- The root `/repos` of scenario A as a component path. -/
def rootRepos : OsPath := [Seg.valid "repos"]

/-- The repository path `/repos/a` as a component path. -/
def pathA : OsPath := [Seg.valid "repos", Seg.valid "a"]

/-- C4: every relative path stored by merging repositories into an initially
empty manifest joins back to one of the merged repositories' absolute paths
(so no out-of-root path is ever stored), and a repository whose path is not
under the root is skipped with no mutation at all. -/
theorem spec_c4_containment :
    (∀ (root : OsPath) (paths : List OsPath) (md : ManifestData),
        (ManifestData.empty root).addAll paths = .ok md →
        ∀ rel ∈ md.repositories, ∃ p, p ∈ paths ∧ joinP root rel = p) ∧
    (∀ (md : ManifestData) (p : OsPath),
        stripPre md.root_path p = none → md.add p = .ok md) := by
  constructor
  · intro root paths md h rel hrel
    rcases addAll_provenance h rel hrel with hmem | ⟨p, hp, hj⟩
    · exact absurd hmem (List.not_mem_nil rel)
    · exact ⟨p, hp, hj⟩
  · intro md p h
    exact add_eval_none h

/-- C4 (witness): merging `/repos/a` under root `/repos` stores `a`, which
joins back to `/repos/a`; an out-of-root repository is a strict no-op. -/
theorem spec_c4_witness :
    (∃ p, p ∈ [pathA] ∧ joinP rootRepos ["a"] = p) ∧
    (ManifestData.empty rootRepos).add [Seg.valid "elsewhere", Seg.valid "x"] =
      .ok (ManifestData.empty rootRepos) :=
  ⟨spec_c4_containment.1 rootRepos [pathA]
      { root_path := rootRepos, repositories := [["a"]] } rfl ["a"] (by decide),
   spec_c4_containment.2 (ManifestData.empty rootRepos)
      [Seg.valid "elsewhere", Seg.valid "x"] rfl⟩

/-- C7: merging the same repository set a second time leaves the manifest
exactly as merging it once did, and adding a repository whose relative path
is already stored is a no-op on the data. -/
theorem spec_c7_idempotent :
    (∀ (root : OsPath) (repos : List OsPath) (md : ManifestData),
        (ManifestData.empty root).addAll repos = .ok md →
        md.addAll repos = .ok md) ∧
    (∀ (md : ManifestData) (p suf : OsPath) (rel : List String),
        stripPre md.root_path p = some suf → osToStr suf = some rel →
        rel ∈ md.repositories → md.add p = .ok md) := by
  constructor
  · intro root repos md h
    exact addAll_twice h
  · intro md p suf rel hs ho hmem
    rw [add_eval_some hs ho, insertRepo_of_mem hmem]

/-- C7 (witness): re-merging `[/repos/a]` into the manifest it produced
returns that manifest unchanged. -/
theorem spec_c7_witness :
    ({ root_path := rootRepos, repositories := [["a"]] } : ManifestData).addAll
        [pathA] =
      .ok { root_path := rootRepos, repositories := [["a"]] } :=
  spec_c7_idempotent.1 rootRepos [pathA] _ rfl

/-- C10 (counterexample): a manifest whose root path is itself undecodable
panics at `serde_json::to_string_pretty(&self.data).unwrap()` even though
the one merged repository's stripped relative path is valid UTF-8 — so
UTF-8 validity of the stripped relative paths alone does not make
`add_repositories` total.  The last two conjuncts record that the input
does satisfy the claim's precondition: the path strips against the root and
its suffix decodes. -/
theorem spec_c10_counterexample :
    Manifest.add_repositories
      { root_path := [Seg.invalid 0], repositories := [] }
      [[Seg.invalid 0, Seg.valid "a"]] true = .error () ∧
    stripPre [Seg.invalid 0] [Seg.invalid 0, Seg.valid "a"] =
      some [Seg.valid "a"] ∧
    osToStr [Seg.valid "a"] = some ["a"] :=
  ⟨rfl, rfl, rfl⟩

/-- C10 (amended): when the root path itself decodes to UTF-8 and every
merged repository path that strips against the root decodes to UTF-8,
`add_repositories` (with a writable document) terminates normally; a
repository under the root with an undecodable relative path hits the
`to_str().unwrap()` conversion and panics rather than being skipped. -/
theorem spec_c10_totality :
    (∀ (md : ManifestData) (repos : List OsPath),
        (osToStr md.root_path).isSome = true →
        (∀ p ∈ repos, ∀ suf, stripPre md.root_path p = some suf →
          (osToStr suf).isSome = true) →
        (Manifest.add_repositories md repos true).isOk = true) ∧
    Manifest.add_repositories (ManifestData.empty [Seg.valid "r"])
      [[Seg.valid "r", Seg.invalid 0]] true = .error () := by
  constructor
  · intro md repos hroot hutf
    obtain ⟨md', hmd'⟩ := addAll_total hutf
    have hser : md'.serializeOk = true := by
      unfold ManifestData.serializeOk
      rw [addAll_root hmd']
      exact hroot
    simp [Manifest.add_repositories, hmd', hser, Except.isOk, Except.toBool]
  · rfl

/-- C10 (witness): merging the UTF-8 path `/repos/a` under the UTF-8 root
`/repos` terminates normally. -/
theorem spec_c10_witness :
    (Manifest.add_repositories (ManifestData.empty rootRepos) [pathA]
      true).isOk = true :=
  spec_c10_totality.1 (ManifestData.empty rootRepos) [pathA] rfl
    (by
      intro p hp suf hs
      simp only [List.mem_singleton] at hp
      subst hp
      have hval : stripPre (ManifestData.empty rootRepos).root_path pathA =
          some [Seg.valid "a"] := by decide
      rw [hval] at hs
      cases hs
      rfl)

/-- C6 (counterexample): a manifest document that exists but cannot be
opened makes `Manifest::open` panic on `File::open(..).unwrap()`, so open is
not raise-free for every document/root combination. -/
theorem spec_c6_counterexample :
    Manifest.open DocState.unopenable [Seg.valid "home"] = .error () := rfl

/-- C6 (amended): `Manifest::open` reads and parses the document when it is
present; a missing document or a parse failure yields the empty snapshot
bound to the given root; it never raises except when the document exists
but cannot be opened, where the `File::open` unwrap panics. -/
theorem spec_c6_amended :
    ∀ (doc : DocState) (root : OsPath),
      (doc = DocState.absent →
        Manifest.open doc root = .ok (ManifestData.empty root)) ∧
      (doc = DocState.openable none →
        Manifest.open doc root = .ok (ManifestData.empty root)) ∧
      (∀ d, doc = DocState.openable (some d) → Manifest.open doc root = .ok d) ∧
      (doc ≠ DocState.unopenable → (Manifest.open doc root).isOk = true) := by
  intro doc root
  refine ⟨?_, ?_, ?_, ?_⟩
  · rintro rfl
    rfl
  · rintro rfl
    rfl
  · intro d h
    subst h
    rfl
  · intro h
    cases doc with
    | absent => rfl
    | unopenable => exact absurd rfl h
    | openable c => cases c <;> rfl

/-- C6 (witness): the amended claim at concrete documents — absent and
garbage documents degrade to the empty snapshot, a parsed document is
returned as read. -/
theorem spec_c6_witness :
    Manifest.open DocState.absent rootRepos = .ok (ManifestData.empty rootRepos) ∧
    Manifest.open (DocState.openable none) rootRepos =
      .ok (ManifestData.empty rootRepos) ∧
    Manifest.open (DocState.openable (some (ManifestData.empty rootRepos)))
      rootRepos = .ok (ManifestData.empty rootRepos) :=
  ⟨(spec_c6_amended DocState.absent rootRepos).1 rfl,
   (spec_c6_amended (DocState.openable none) rootRepos).2.1 rfl,
   (spec_c6_amended (DocState.openable (some (ManifestData.empty rootRepos)))
      rootRepos).2.2.1 (ManifestData.empty rootRepos) rfl⟩

